import Mathlib

/-!
Verification of the gitlab-pages static-site edge server against its
natural-language specification.  Go strings are embedded as lists of
characters; Go maps as association lists; the relevant functions of the
source tree are transcribed as executable Lean definitions and the spec
claims are settled as theorems about them.  The file is laid out with all
definitions first, followed by the theorems.
-/

set_option autoImplicit false

/-- A Go string, embedded as its list of characters. -/
abbrev GoStr := List Char

/-- Convert a Lean string literal into the embedding. -/
def str (s : String) : GoStr := s.data

/-- Go `strings.HasPrefix(s, pre)`. -/
def strHasPref (s pre : GoStr) : Bool := pre.isPrefixOf s

/-- Go `strings.Contains(s, sub)`: `sub` occurs as a contiguous substring of `s`. -/
def strContains (s sub : GoStr) : Bool :=
  if sub.isPrefixOf s then true
  else
    match s with
    | [] => false
    | _ :: t => strContains t sub

/-- Go `strings.TrimPrefix(s, pre)`: drops `pre` when it is a prefix, else returns `s`. -/
def strTrimPref (s pre : GoStr) : GoStr :=
  if pre.isPrefixOf s then s.drop pre.length else s

/-- Whether the character `c` occurs in `s`. -/
def strHasChar (s : GoStr) (c : Char) : Bool := s.any (fun x => x = c)

namespace Gitlab

/-!
## `internal/source/gitlab/gitlab.go`

`Resolve` iterates over the lookup paths of the virtual-domain response and
selects the first one whose `Prefix` occurs (via `strings.Contains`) in the
request URL path.
-/

/-- One element of `response.LookupPaths` (`internal/source/gitlab/api`). -/
structure ApiLookupPath where
  pref : GoStr
  sourcePath : GoStr
  httpsOnly : Bool
  accessControl : Bool
  projectID : Nat
  deriving DecidableEq, Repr

/-- The `serving.LookupPath` record as constructed by `Resolve`. -/
structure ServingLookupPath where
  pref : GoStr
  path : GoStr
  isNamespaceProject : Bool
  isHTTPSOnly : Bool
  hasAccessControl : Bool
  projectID : Nat
  deriving DecidableEq, Repr

/-- The `serving.LookupPath` literal built inside `Resolve`'s loop body. -/
def mkServingLookupPath (total : Nat) (lk : ApiLookupPath) : ServingLookupPath :=
  { pref := lk.pref
    path := strTrimPref lk.sourcePath (str "/")
    isNamespaceProject := decide (lk.pref = str "/") && decide (total > 1)
    isHTTPSOnly := lk.httpsOnly
    hasAccessControl := lk.accessControl
    projectID := lk.projectID }

/-- The `for _, lookup := range response.LookupPaths` loop of `Resolve`:
the first lookup whose `Prefix` is contained in the URL path wins; on a match
the request path is `strings.TrimPrefix(r.URL.Path, lookup.Prefix)`. -/
def resolveLoop (total : Nat) (urlPath : GoStr) :
    List ApiLookupPath → Option (ServingLookupPath × GoStr)
  | [] => none
  | lk :: rest =>
    if strContains urlPath lk.pref then
      some (mkServingLookupPath total lk, strTrimPref urlPath lk.pref)
    else
      resolveLoop total urlPath rest

/-- The method `Gitlab.Resolve` restricted to its pure part: given the lookup paths of
the virtual-domain response and the request URL path, produce the lookup path
and request path, or `none` for the "could not match lookup path" error. -/
def resolve (lookups : List ApiLookupPath) (urlPath : GoStr) :
    Option (ServingLookupPath × GoStr) :=
  resolveLoop lookups.length urlPath lookups

/-- First-match characterisation used in the amended claim for `Resolve`:
it returns, via `List.find?`, the first lookup path in response order whose
prefix occurs as a substring of the URL path, paired with
`TrimPrefix(urlPath, prefix)`; `none` when no prefix is a substring. -/
def resolveByFirstContains (lookups : List ApiLookupPath) (urlPath : GoStr) :
    Option (ServingLookupPath × GoStr) :=
  (lookups.find? (fun lk => strContains urlPath lk.pref)).map
    (fun lk => (mkServingLookupPath lookups.length lk, strTrimPref urlPath lk.pref))

end Gitlab

namespace ZipVfs

/-!
## `internal/vfs/zip/archive.go`

The archive records, for entries whose name starts with the guessed public
directory name, a file map and a directory map; lookups clean the request
path relative to the public directory name with Go's `path.Clean`.
-/

/-- One segment-processing pass of Go `path.Clean`: empty and `.` segments
are dropped, `..` pops the previous segment (or is kept when there is nothing
to pop in a relative path, or dropped at the root of a rooted path). The
accumulator holds the output segments in reverse order. -/
def cleanSegs (rooted : Bool) : List GoStr → List GoStr → List GoStr
  | [], acc => acc.reverse
  | s :: rest, acc =>
    if s = [] ∨ s = str "." then cleanSegs rooted rest acc
    else if s = str ".." then
      match acc with
      | [] => if rooted then cleanSegs rooted rest [] else cleanSegs rooted rest [str ".."]
      | a :: as =>
        if a = str ".." then cleanSegs rooted rest (s :: a :: as)
        else cleanSegs rooted rest as
    else cleanSegs rooted rest (s :: acc)

/-- Go `path.Clean`: purely lexical cleaning of slash-separated paths. -/
def pathClean (p : GoStr) : GoStr :=
  if p = [] then str "."
  else
    let rooted := p.head? = some '/'
    let out := cleanSegs rooted (p.splitOn '/') []
    let joined := (str "/").intercalate out
    if rooted then '/' :: joined
    else if joined = [] then str "." else joined

/-- Go `path.Split(p)`'s directory component: everything up to and including
the final slash (empty when `p` has no slash). -/
def pathSplitDir (p : GoStr) : GoStr :=
  let fileLen := (p.reverse.takeWhile (fun c => ¬ (c = '/'))).length
  p.take (p.length - fileLen)

/-- The kind encoded in a zip entry's file mode. -/
inductive EntryKind
  | dir
  | regular
  | symlink
  deriving DecidableEq, Repr

/-- A zip entry's compression method. -/
inductive Compression
  | store
  | deflate
  | other
  deriving DecidableEq, Repr

/-- The data of a `zip.File` entry relevant to the archive index. -/
structure ZipEntry where
  name : GoStr
  kind : EntryKind
  method : Compression
  deriving DecidableEq, Repr

/-- Go `strings.SplitN(name, "/", 2)[0]`: the first path segment of a name. -/
def firstSegment (s : GoStr) : GoStr := s.takeWhile (fun c => ¬ (c = '/'))

/-- Function `sliceContains` from `archive.go`. -/
def sliceContains (slice : List GoStr) (value : GoStr) : Bool :=
  slice.any (fun item => item = value)

/-- The loop of `getAllRootDirectories`: collect the first path segment of
every entry name, deduplicated in encounter order. -/
def rootDirsLoop : List GoStr → List GoStr → List GoStr
  | [], acc => acc
  | n :: rest, acc =>
    let rootDir := firstSegment n
    if sliceContains acc rootDir then rootDirsLoop rest acc
    else rootDirsLoop rest (acc ++ [rootDir])

/-- Function `getAllRootDirectories` over the archive's entry names. -/
def getAllRootDirectories (names : List GoStr) : List GoStr :=
  rootDirsLoop names []

/-- The ordered candidate list of `guessPublicDirectoryName`. -/
def commonPrefixes : List GoStr :=
  [str "public", str "build", str "dist", str "out", str "_site"]

/-- Function `guessPublicDirectoryName`: the sole root directory if there is exactly
one, else the first candidate occurring among the root directories, else
the empty string. -/
def guessPublicDirectoryName (names : List GoStr) : GoStr :=
  let rootDirectories := getAllRootDirectories names
  if rootDirectories.length = 1 then rootDirectories.headD []
  else
    match commonPrefixes.find? (fun pref => sliceContains rootDirectories pref) with
    | some pref => pref
    | none => []

/-- The file and directory maps built by `readArchive`.  `files` keeps the
newest binding first (a Go map overwrites on equal keys); `dirs` records the
key set of the `directories` map. -/
structure ZipIndex where
  files : List (GoStr × ZipEntry)
  dirs : List GoStr
  deriving DecidableEq, Repr

/-- Lookup in the `files` map. -/
def filesLookup (files : List (GoStr × ZipEntry)) (k : GoStr) : Option ZipEntry :=
  (files.find? (fun p => p.fst = k)).map Prod.snd

/-- Key-presence in the `directories` map. -/
def dirsMem (dirs : List GoStr) (k : GoStr) : Bool := dirs.any (fun d => d = k)

/-- The map write `directories[name] = &file.FileHeader` (presence only). -/
def addDirEntry (dirs : List GoStr) (name : GoStr) : List GoStr :=
  if dirsMem dirs name then dirs else dirs ++ [name]

/-- Function `addPathDirectory`: register the `path.Split` directory component of the
entry's name, unless it is empty or already present. -/
def addPathDirectory (dirs : List GoStr) (pathname : GoStr) : List GoStr :=
  let d := pathSplitDir pathname
  if d = [] then dirs
  else if dirsMem dirs d then dirs
  else dirs ++ [d]

/-- One iteration of the `readArchive` entry loop: entries not under the
public directory name are skipped, a directory entry goes into `directories`,
any other entry into `files`, and the entry's immediate parent directory is
synthesized via `addPathDirectory`. -/
def readArchiveStep (pub : GoStr) (idx : ZipIndex) (e : ZipEntry) : ZipIndex :=
  if strHasPref e.name pub then
    let idx' :=
      if e.kind = EntryKind.dir then { idx with dirs := addDirEntry idx.dirs e.name }
      else { idx with files := (e.name, e) :: idx.files }
    { idx' with dirs := addPathDirectory idx'.dirs e.name }
  else idx

/-- The index-building part of `readArchive`: guess the public directory
name, then fold the entry loop over the archive's entries. -/
def readArchiveIndex (entries : List ZipEntry) : GoStr × ZipIndex :=
  let pub := guessPublicDirectoryName (entries.map ZipEntry.name)
  (pub, entries.foldl (readArchiveStep pub) ⟨[], []⟩)

/-- Function `findFile`: clean `publicDirectoryName + "/" + name` and look it up in
the files map. -/
def findFile (pub : GoStr) (idx : ZipIndex) (name : GoStr) : Option ZipEntry :=
  filesLookup idx.files (pathClean (pub ++ str "/" ++ name))

/-- Function `findDirectory`: clean `publicDirectoryName + "/" + name`, append `/`,
and check the directories map. -/
def findDirectory (pub : GoStr) (idx : ZipIndex) (name : GoStr) : Bool :=
  dirsMem idx.dirs (pathClean (pub ++ str "/" ++ name) ++ str "/")

/-- Error results of the archive operations. -/
inductive VfsError
  | notExist
  | notFile
  | notSymlink
  | symlinkTooLong
  | unsupportedCompression
  deriving DecidableEq, Repr

/-- The reader returned by `Open`. -/
inductive ZipReader
  | deflateReader (e : ZipEntry)
  | sectionReader (e : ZipEntry)
  deriving DecidableEq, Repr

/-- Method `zipArchive.Open`: find the file, reject directories and non-regular
entries, then wrap the section reader according to the compression method. -/
def zipOpen (pub : GoStr) (idx : ZipIndex) (name : GoStr) : Except VfsError ZipReader :=
  match findFile pub idx name with
  | none =>
    if findDirectory pub idx name then .error .notFile else .error .notExist
  | some file =>
    if ¬ file.kind = EntryKind.regular then .error .notFile
    else
      match file.method with
      | .deflate => .ok (.deflateReader file)
      | .store => .ok (.sectionReader file)
      | .other => .error .unsupportedCompression

/-- The `os.FileInfo` returned by `Lstat`. -/
inductive StatInfo
  | fileInfo (e : ZipEntry)
  | dirInfo (key : GoStr)
  deriving DecidableEq, Repr

/-- Method `zipArchive.Lstat`: stat the file, else the directory, else not-exist. -/
def zipLstat (pub : GoStr) (idx : ZipIndex) (name : GoStr) : Except VfsError StatInfo :=
  match findFile pub idx name with
  | some file => .ok (.fileInfo file)
  | none =>
    if findDirectory pub idx name then
      .ok (.dirInfo (pathClean (pub ++ str "/" ++ name) ++ str "/"))
    else .error .notExist

/-- Method `zipArchive.Readlink` up to the cache/read boundary: find the file,
reject directories and non-symlinks. (The symlink content read itself is an
external byte-range fetch.) -/
def zipReadlinkCheck (pub : GoStr) (idx : ZipIndex) (name : GoStr) : Except VfsError ZipEntry :=
  match findFile pub idx name with
  | none =>
    if findDirectory pub idx name then .error .notSymlink else .error .notExist
  | some file =>
    if ¬ file.kind = EntryKind.symlink then .error .notSymlink else .ok file

/-- The claim's reading of "top-level directory": a distinct first path
segment of an entry name that actually is a directory level, i.e. comes from
an entry name containing a slash. Deduplicated in encounter order. -/
def claimTopLevelDirs (names : List GoStr) : List GoStr :=
  ((names.filter (fun n => strHasChar n '/')).map firstSegment).foldl
    (fun acc s => if s ∈ acc then acc else acc ++ [s]) []

/-- The public-prefix choice exactly as claim C3 states it: the sole
top-level directory when there is exactly one, else the first candidate of
`commonPrefixes` among the top-level directories, else the empty prefix. -/
def claimPublicDirectoryName (names : List GoStr) : GoStr :=
  let dirs := claimTopLevelDirs names
  if dirs.length = 1 then dirs.headD []
  else
    match commonPrefixes.find? (fun c => decide (c ∈ dirs)) with
    | some c => c
    | none => []

/-- The distinct first path segments of all entry names, in encounter
order — the amended notion of "top-level directories" (a root-level plain
file also contributes its name as a segment). -/
def distinctFirstSegments (names : List GoStr) : List GoStr :=
  (names.map firstSegment).foldl
    (fun acc s => if s ∈ acc then acc else acc ++ [s]) []

/-- The public-prefix choice as amended: phrased over the distinct first
path segments of the entry names instead of the actual top-level
directories. -/
def amendedPublicDirectoryName (names : List GoStr) : GoStr :=
  let segs := distinctFirstSegments names
  if segs.length = 1 then segs.headD []
  else
    match commonPrefixes.find? (fun c => decide (c ∈ segs)) with
    | some c => c
    | none => []

end ZipVfs

namespace App

/-!
## `app.go` and the legacy `domain` type

The pure parts of the request pipeline entry: the auxiliary-handler chain of
`tryAuxiliaryHandlers`, the `healthCheck` endpoint, and the TLS
certificate-selection callback `ServeTLS` with the lazy certificate assembly
`ensureCertificate` of the `domain` type.
-/

/-- Errors of `ensureCertificate`. -/
inductive CertErr
  | onlyWithConfig
  | keyPairInvalid
  deriving DecidableEq, Repr

/-- The per-domain pages configuration (`domainConfig`) fields used for TLS. -/
structure DomainConfig where
  certificate : GoStr
  key : GoStr
  deriving DecidableEq, Repr

/-- The legacy `domain` record: optional configuration and the memoised
parsed certificate. `Cert` abstracts `tls.Certificate`. -/
structure PagesDomain (Cert : Type) where
  config : Option DomainConfig
  certificate : Option Cert

/-- Method `ensureCertificate`: fail without configuration, return the cached
pair when present, otherwise parse the PEM pair (`tls.X509KeyPair`, abstracted
by `parse`) and cache it. Returns the Go `(certificate, error)` pair together
with the updated receiver. -/
def ensureCertificate {Cert : Type} (parse : GoStr → GoStr → Option Cert)
    (d : PagesDomain Cert) : (Option Cert × Option CertErr) × PagesDomain Cert :=
  match d.config with
  | none => ((none, some .onlyWithConfig), d)
  | some cfg =>
    match d.certificate with
    | some c => ((some c, none), d)
    | none =>
      match parse cfg.certificate cfg.key with
      | none => ((none, some .keyPairInvalid), d)
      | some c => ((some c, none), { d with certificate := some c })

/-- Go `strings.ToLower` (ASCII view, sufficient for host names). -/
def strToLower (s : GoStr) : GoStr := s.map Char.toLower

/-- The app state relevant to the pipeline: the domain map (which is `nil`
until the first `UpdateDomains`). -/
structure TheApp (Cert : Type) where
  dm : Option (List (GoStr × PagesDomain Cert))

/-- Method `theApp.isReady`: the domain map has been set. -/
def isReady {Cert : Type} (a : TheApp Cert) : Bool := a.dm.isSome

/-- Method `theApp.domain`: lower-case the host and look it up in the domain
map (indexing a `nil` map yields no domain). -/
def appDomain {Cert : Type} (a : TheApp Cert) (host : GoStr) : Option (PagesDomain Cert) :=
  match a.dm with
  | none => none
  | some m => (m.find? (fun p => p.fst = strToLower host)).map Prod.snd

/-- Method `theApp.ServeTLS`: empty server name or unknown domain fall back
to the default certificate with `(nil, nil)`; otherwise the result of the
lazy assembly is returned with the error discarded (`tls, _ := ...`). -/
def serveTLS {Cert : Type} (parse : GoStr → GoStr → Option Cert)
    (a : TheApp Cert) (serverName : GoStr) : Option Cert × Option CertErr :=
  if serverName = [] then (none, none)
  else
    match appDomain a serverName with
    | some d => (((ensureCertificate parse d).1).1, none)
    | none => (none, none)

/-- The request data consumed by the auxiliary-handler chain. -/
structure Request where
  urlPath : GoStr
  rawQuery : GoStr
  host : GoStr
  https : Bool
  deriving DecidableEq, Repr

/-- Go `Request.RequestURI` for an origin-form request: the URL path followed
by `?` and the raw query when a query string is present. -/
def requestURI (r : Request) : GoStr :=
  r.urlPath ++ (if r.rawQuery = [] then [] else '?' :: r.rawQuery)

/-- The per-request data of a domain used by `tryAuxiliaryHandlers`:
the result of `domain.IsHTTPSOnly(r)`. -/
structure DomainAux where
  httpsOnly : Bool
  deriving DecidableEq, Repr

/-- The possible short-circuit outcomes of `tryAuxiliaryHandlers`, plus
`fallthroughServe` for requests that continue to content serving. -/
inductive AuxOutcome
  | healthSuccess
  | healthNotReady
  | redirectToHTTPS (code : Nat)
  | artifactServed
  | serve503
  | serve404
  | fallthroughServe
  deriving DecidableEq, Repr

/-- Method `theApp.healthCheck`: `success` (HTTP 200) when the domain map is
initialised, else `not yet ready` with HTTP 503. -/
def healthCheck (ready : Bool) : AuxOutcome :=
  if ready then .healthSuccess else .healthNotReady

/-- Method `theApp.tryAuxiliaryHandlers`, with the externally-determined
inputs made explicit: `artifactHit` is whether `a.Artifact.TryMakeRequest`
proxied the request, `ready` is `a.isReady()`, and `dom` is the resolved
domain with its `IsHTTPSOnly` answer. The status-page check compares
`r.RequestURI` against the configured status path. -/
def tryAuxiliaryHandlers (statusPath : GoStr) (redirectHTTP : Bool)
    (r : Request) (https : Bool) (artifactHit : Bool) (ready : Bool)
    (dom : Option DomainAux) : AuxOutcome :=
  if requestURI r = statusPath then healthCheck ready
  else if ¬ https ∧ redirectHTTP then .redirectToHTTPS 307
  else if artifactHit then .artifactServed
  else if ¬ ready then .serve503
  else
    match dom with
    | none => .serve404
    | some d => if ¬ https ∧ d.httpsOnly then .redirectToHTTPS 301 else .fallthroughServe

/-- The HTTP status and body of the claim's health responses. -/
def auxResponse : AuxOutcome → Option (Nat × GoStr)
  | .healthSuccess => some (200, str "success")
  | .healthNotReady => some (503, str "not yet ready")
  | _ => none

end App

namespace Auth

/-!
## The auth package (`part_008`, newer version, lines 1-675)

Sessions are association lists of string values; query strings are
association lists of symbolic values so that the JWT produced by the
cross-domain code relay stays distinguishable from a plain string.
-/

/-- The session values (`gorilla/sessions` values restricted to the string
keys the package uses). Latest binding first. -/
abbrev Session := List (GoStr × GoStr)

/-- Read a session value. -/
def sessGet (s : Session) (k : GoStr) : Option GoStr :=
  (s.find? (fun p => p.fst = k)).map Prod.snd

/-- Delete a session value. -/
def sessDel (s : Session) (k : GoStr) : Session :=
  s.filter (fun p => ¬ p.fst = k)

/-- Set a session value. -/
def sessSet (s : Session) (k v : GoStr) : Session :=
  (k, v) :: sessDel s k

/-- A query-parameter value: either a plain string or the encrypted-and-signed
JWT produced by the code relay, kept symbolic as its bound contents
`(audience, code, expiry seconds)`. -/
inductive QVal
  | plain (s : GoStr)
  | jwtCode (aud : GoStr) (code : GoStr) (expirySecs : Nat)
  deriving DecidableEq, Repr

/-- Go `url.Values`: multimap from keys to value lists. -/
abbrev Values := List (GoStr × List QVal)

/-- Go `url.Values.Get`: the first value for the key, if any. -/
def valuesGetQ (q : Values) (k : GoStr) : Option QVal :=
  match q.find? (fun p => p.fst = k) with
  | some (_, v :: _) => some v
  | _ => none

/-- Whether the first value of a QVal reads as empty under `Get`. -/
def qvalNonempty : QVal → Bool
  | .plain s => ¬ s = []
  | .jwtCode _ _ _ => true

/-- Go `q.Get(k) != ""`. -/
def valuesGetNonempty (q : Values) (k : GoStr) : Bool :=
  match valuesGetQ q k with
  | some v => qvalNonempty v
  | none => false

/-- Go `q.Get(k)` as a plain string (the incoming callback query carries only
plain values; the empty string for a missing key). -/
def valuesGetStr (q : Values) (k : GoStr) : GoStr :=
  match valuesGetQ q k with
  | some (.plain s) => s
  | _ => []

/-- Go `url.Values.Del`. -/
def valuesDel (q : Values) (k : GoStr) : Values :=
  q.filter (fun p => ¬ p.fst = k)

/-- Go `url.Values.Set`: replace the key's values with the one given. -/
def valuesSet (q : Values) (k : GoStr) (v : QVal) : Values :=
  (k, [v]) :: valuesDel q k

/-- Go `strings.HasSuffix(s, suf)`. -/
def strHasSuffix (s suf : GoStr) : Bool := suf.isSuffixOf s

/-- Go `strings.TrimRight(s, cutset)` for the single-character cutset. -/
def strTrimRight (s : GoStr) (c : Char) : GoStr :=
  (s.reverse.dropWhile (fun x => x = c)).reverse

/-- The configuration fields of `Auth` (the session store and HTTP client it
also holds are external effects, modelled at the call sites). -/
structure AuthData where
  pagesDomain : GoStr
  clientID : GoStr
  clientSecret : GoStr
  redirectURI : GoStr
  gitLabServer : GoStr
  authSecret : GoStr
  authScope : GoStr
  jwtExpirySecs : Nat
  deriving DecidableEq, Repr

/-- Constructor `New` of the auth package: trims trailing slashes from the
GitLab server URL and fixes the JWT expiry at `time.Minute` (60 seconds).
The three HKDF-derived keys (two cookie-store keys and the JWT signing key)
are cryptographic material external to this model. -/
def authNew (pagesDomain storeSecret clientID clientSecret redirectURI gitLabServer authScope : GoStr) : AuthData :=
  { pagesDomain := pagesDomain
    clientID := clientID
    clientSecret := clientSecret
    redirectURI := redirectURI
    gitLabServer := strTrimRight gitLabServer '/'
    authSecret := storeSecret
    authScope := authScope
    jwtExpirySecs := 60 }

/-- Modelled from the spec: `EncryptAndSignCode` is defined in the auth
package's JWT source file, which is absent from `src/` (only its callers
`handleProxyingAuth` and `checkAuthenticationResponse` and its test appear).
Per the spec it encrypts-and-signs the OAuth `code` as a short-lived JWT
using the JWT key, binding `(code, audience = target domain, expiry =
jwtExpiry from now)`; it is embedded symbolically as the `QVal.jwtCode`
token carrying exactly that binding. -/
def encryptAndSignCode (a : AuthData) (domain code : GoStr) : QVal :=
  .jwtCode domain code a.jwtExpirySecs

/-- Predicate `shouldProxyAuthToGitlab`: both `domain` and `state` query
parameters are present and non-empty. -/
def shouldProxyAuthToGitlab (q : Values) : Bool :=
  valuesGetNonempty q (str "domain") && valuesGetNonempty q (str "state")

/-- Predicate `shouldProxyCallbackToCustomDomain`: the session holds a
`proxy_auth_domain` value. -/
def shouldProxyCallbackToCustomDomain (session : Session) : Bool :=
  (sessGet session (str "proxy_auth_domain")).isSome

/-- Method `domainAllowed`: the name is the pages domain itself, a
subdomain of it, or resolves in the domain source (`domainsHas`). -/
def domainAllowed (a : AuthData) (domainsHas : GoStr → Bool) (name : GoStr) : Bool :=
  ((name = a.pagesDomain) || strHasSuffix ('.' :: name) a.pagesDomain) || domainsHas name

/-- The authorize URL built from `authorizeURLTemplate`. -/
def authorizeURL (a : AuthData) (state : GoStr) : GoStr :=
  a.gitLabServer ++ str "/oauth/authorize?client_id=" ++ a.clientID ++
    str "&redirect_uri=" ++ a.redirectURI ++ str "&response_type=code&state=" ++
    state ++ str "&scope=" ++ a.authScope

/-- Outcomes of `handleProxyingAuth`. -/
inductive ProxyOutcome
  | serve500
  | serve401
  | serve503
  | redirectToAuthorize (target : GoStr) (session : Session)
  | redirectToProxyDomain (base urlPath : GoStr) (query : Values) (session : Session)
  | noAction
  deriving DecidableEq, Repr

/-- Method `handleProxyingAuth`. First branch: an `/auth?domain=&state=`
request on the pages domain stores `proxy_auth_domain` and redirects to the
identity provider (`parseHostOf` abstracts `url.Parse` plus
`net.SplitHostPort`, `domainsHas` the domain source, `saveFails` a failing
`session.Save`). Second branch: a provider callback finding
`proxy_auth_domain` in the session clears it, signs-and-encrypts the code
bound to that domain, deletes any `token` parameter, replaces `code` with
the JWT and redirects to the originating domain. (The error path of
`EncryptAndSignCode` itself is not represented: the symbolic signing is
total.) -/
def handleProxyingAuth (a : AuthData) (parseHostOf : GoStr → Option GoStr)
    (domainsHas : GoStr → Bool) (saveFails : Bool)
    (session : Session) (urlPath : GoStr) (q : Values) : ProxyOutcome :=
  if shouldProxyAuthToGitlab q then
    let domain := valuesGetStr q (str "domain")
    let state := valuesGetStr q (str "state")
    match parseHostOf domain with
    | none => .serve500
    | some host =>
      if ¬ domainAllowed a domainsHas host then .serve401
      else
        let session' := sessSet session (str "proxy_auth_domain") domain
        if saveFails then .serve500
        else .redirectToAuthorize (authorizeURL a state) session'
  else if shouldProxyCallbackToCustomDomain session then
    let proxyDomain := (sessGet session (str "proxy_auth_domain")).getD []
    let session' := sessDel session (str "proxy_auth_domain")
    if saveFails then .serve500
    else
      let signedCode := encryptAndSignCode a proxyDomain (valuesGetStr q (str "code"))
      let q1 := valuesDel q (str "token")
      let q2 := valuesSet q1 (str "code") signedCode
      .redirectToProxyDomain proxyDomain urlPath q2 session'
  else .noAction

/-- A decoded response of the identity API (`apiClient.Do` result). -/
structure ApiResponse where
  status : Nat
  decodeOk : Bool
  errorField : GoStr
  deriving DecidableEq, Repr

/-- The server-side effects the auth methods can perform on the response
writer. -/
inductive ServeAction
  | serve500
  | serve401
  | serve404
  | serve503
  | redirect (target : GoStr)
  | notFoundAuthFailed
  deriving DecidableEq, Repr

/-- A Go runtime panic (nil-pointer dereference). -/
inductive PanicE
  | nilPointerDeref
  deriving DecidableEq, Repr

/-- The state behind a non-nil `*Auth` receiver: its configuration plus the
behaviour of its external collaborators (session store, `session.Save`,
random state generation, identity-API client). `tryAuthenticateBody`
abstracts the body of `TryAuthenticate` past its nil check (callback-path
dispatch, proxying, token fetch). -/
structure AuthRecv where
  data : AuthData
  storeSession : App.Request → Session
  storeErr : App.Request → Bool
  saveFails : Bool
  genState : GoStr
  apiResult : Option ApiResponse
  tryAuthenticateBody : App.Request → Bool × List ServeAction

/-- Function `getRequestAddress`. -/
def getRequestAddress (r : App.Request) : GoStr :=
  (if r.https then str "https://" else str "http://") ++ r.host ++ App.requestURI r

/-- Function `getRequestDomain`. -/
def getRequestDomainStr (r : App.Request) : GoStr :=
  (if r.https then str "https://" else str "http://") ++ r.host

/-- Method `getSessionFromStore`: `a.store.Get(r, "gitlab-pages")` reads the
`store` field of the receiver, so a nil `*Auth` panics with a nil-pointer
dereference here. (The cookie options set on the session — `Path`,
`HttpOnly`, `Secure`, `MaxAge` — live outside this value model.) -/
def getSessionFromStore (recv : Option AuthRecv) (r : App.Request) :
    Except PanicE (Session × Bool) :=
  match recv with
  | none => .error .nilPointerDeref
  | some d => .ok (d.storeSession r, d.storeErr r)

/-- Method `checkSession` on a non-nil receiver: a store error re-saves the
cookie (500 on a save failure, else a 302 back to the request address) and
yields no session. -/
def checkSessionD (d : AuthRecv) (r : App.Request) : Option Session × List ServeAction :=
  let session := d.storeSession r
  if d.storeErr r then
    if d.saveFails then (none, [.serve500])
    else (none, [.redirect (getRequestAddress r)])
  else (some session, [])

/-- Method `checkSession`; on a nil receiver the panic of
`getSessionFromStore` propagates. -/
def checkSession (recv : Option AuthRecv) (r : App.Request) :
    Except PanicE (Option Session × List ServeAction) :=
  match recv with
  | none => (getSessionFromStore none r).map (fun _ => (none, []))
  | some d => .ok (checkSessionD d r)

/-- Function `getProxyAddress` (template `%s?domain=%s&state=%s` over the
redirect URI). -/
def getProxyAddress (a : AuthData) (r : App.Request) (state : GoStr) : GoStr :=
  a.redirectURI ++ str "?domain=" ++ getRequestDomainStr r ++ str "&state=" ++ state

/-- Method `checkTokenExists`: with no access token, store a fresh `state`
and the request address, clear any proxying, save the session (500 on
failure) and redirect to the pages-domain proxy address; returns whether it
intercepted, together with the updated session and effects. -/
def checkTokenExists (d : AuthRecv) (session : Session) (r : App.Request) :
    Bool × Session × List ServeAction :=
  match sessGet session (str "access_token") with
  | none =>
    let state := d.genState
    let s1 := sessSet session (str "state") state
    let s2 := sessSet s1 (str "uri") (getRequestAddress r)
    let s3 := sessDel s2 (str "proxy_auth_domain")
    if d.saveFails then (true, s3, [.serve500])
    else (true, s3, [.redirect (getProxyAddress d.data r state)])
  | some _ => (false, session, [])

/-- Method `checkSessionIsValid` on a non-nil receiver. -/
def checkSessionIsValidD (d : AuthRecv) (r : App.Request) :
    Option Session × List ServeAction :=
  match checkSessionD d r with
  | (none, acts) => (none, acts)
  | (some session, _) =>
    let (redirected, _, acts) := checkTokenExists d session r
    if redirected then (none, acts) else (some session, [])

/-- Method `checkSessionIsValid`; nil receivers panic inside `checkSession`'s
`getSessionFromStore`. -/
def checkSessionIsValid (recv : Option AuthRecv) (r : App.Request) :
    Except PanicE (Option Session × List ServeAction) :=
  match recv with
  | none => (checkSession none r).map id
  | some d => .ok (checkSessionIsValidD d r)

/-- Exported method `RequireAuth`: `a.checkSessionIsValid(w, r) == nil`.
It has no nil-receiver check, so a nil `*Auth` reaches the store dereference
and panics. -/
def requireAuth (recv : Option AuthRecv) (r : App.Request) :
    Except PanicE (Bool × List ServeAction) :=
  (checkSessionIsValid recv r).map (fun p => (p.1.isNone, p.2))

/-- Function `destroySession`: drop the access token, save (500 on failure)
and redirect back to the request address. -/
def destroySession (d : AuthRecv) (session : Session) (r : App.Request) :
    Session × List ServeAction :=
  let s' := sessDel session (str "access_token")
  if d.saveFails then (s', [.serve500])
  else (s', [.redirect (getRequestAddress r)])

/-- The package-level `checkResponseForInvalidToken` helper: a `401` whose
JSON body decodes with `error = "invalid_token"` destroys the session. -/
def checkResponseForInvalidTokenH (d : AuthRecv) (resp : ApiResponse)
    (session : Session) (r : App.Request) : Bool × List ServeAction :=
  if resp.status = 401 then
    if ¬ resp.decodeOk then (false, [])
    else if resp.errorField = str "invalid_token" then
      let (_, acts) := destroySession d session r
      (true, acts)
    else (false, [])
  else (false, [])

/-- Method `checkAuthentication` on a non-nil receiver (`projectID` comes
from `domain.GetProjectID(r)`; the outbound API call is `d.apiResult`; a
non-200 or transport error falls back to `ServeNotFoundAuthFailed`). -/
def checkAuthenticationD (d : AuthRecv) (r : App.Request) (projectID : Nat) :
    Bool × List ServeAction :=
  match checkSessionIsValidD d r with
  | (none, acts) => (true, acts)
  | (some session, _) =>
    match d.apiResult with
    | none => (true, [.notFoundAuthFailed])
    | some resp =>
      let (invalid, acts) := checkResponseForInvalidTokenH d resp session r
      if invalid then (true, acts)
      else if ¬ resp.status = 200 then (true, [.notFoundAuthFailed])
      else (false, [])

/-- Exported method `IsAuthSupported`: `a != nil`. -/
def isAuthSupported (recv : Option AuthRecv) : Bool := recv.isSome

/-- Exported method `TryAuthenticate`: `nil` receivers return `false`
immediately; otherwise the callback body runs. -/
def tryAuthenticate (recv : Option AuthRecv) (r : App.Request) :
    Bool × List ServeAction :=
  match recv with
  | none => (false, [])
  | some d => d.tryAuthenticateBody r

/-- Exported method `CheckAuthenticationWithoutProject`: `nil` receivers
report no auth support with `false`. -/
def checkAuthenticationWithoutProject (recv : Option AuthRecv) (r : App.Request)
    (projectID : Nat) : Bool × List ServeAction :=
  match recv with
  | none => (false, [])
  | some d => checkAuthenticationD d r projectID

/-- Exported method `CheckAuthentication`: a `nil` receiver serves a 500
error response and reports the request as handled (`true`). -/
def checkAuthentication (recv : Option AuthRecv) (r : App.Request)
    (projectID : Nat) : Bool × List ServeAction :=
  match recv with
  | none => (true, [.serve500])
  | some d => checkAuthenticationD d r projectID

/-- Exported method `GetTokenIfExists`: a `nil` receiver yields the empty
token and no error. -/
def getTokenIfExists (recv : Option AuthRecv) (r : App.Request) :
    (GoStr × Option GoStr) × List ServeAction :=
  match recv with
  | none => (([], none), [])
  | some d =>
    match checkSessionD d r with
    | (none, acts) => (([], some (str "Error retrieving the session")), acts)
    | (some session, _) =>
      match sessGet session (str "access_token") with
      | some t => ((t, none), [])
      | none => (([], none), [])

/-- Exported method `CheckResponseForInvalidToken`: a `nil` receiver returns
`false`. -/
def checkResponseForInvalidToken (recv : Option AuthRecv) (r : App.Request)
    (resp : ApiResponse) : Bool × List ServeAction :=
  match recv with
  | none => (false, [])
  | some d =>
    match checkSessionD d r with
    | (none, acts) => (true, acts)
    | (some session, _) => checkResponseForInvalidTokenH d resp session r

end Auth

namespace ZipGate

/-!
## The open gate of `zipArchive` (`archive.go`, `openArchive`/`readArchive`)

`openArchive` checks `openStatus` (the `done` channel), runs
`a.once.Do(go a.readArchive(url))`, and then waits on `done` or on the
caller's context. The synchronisation is modelled as a labelled transition
system: the `sync.Once`/`done`-channel state is a phase, and the number of
`readArchive` goroutines ever launched is counted explicitly.
-/

/-- The read state of an archive: `notStarted` before anyone used the
`sync.Once`; `inProgress` while the single `readArchive` goroutine runs;
`finished res` once `readArchive` stored `a.err = res` and closed `a.done`. -/
inductive ReadPhase
  | notStarted
  | inProgress
  | finished (res : Option GoStr)
  deriving DecidableEq, Repr

/-- Gate state: the phase plus the number of `readArchive` launches. -/
structure GateState where
  phase : ReadPhase
  spawns : Nat
  deriving DecidableEq, Repr

/-- Events of the open gate. -/
inductive GateEvent
  | callSpawn
  | callJoin
  | readFinish (res : Option GoStr)
  | callerDone (res : Option GoStr)
  | callerCancelled
  deriving DecidableEq, Repr

/-- The transition relation. `callSpawn`: a caller finds the status still
`archiveOpening` and wins the `once.Do`, launching `readArchive` in its own
goroutine (with the archive's own `openTimeout` context, detached from the
caller). `callJoin`: any other caller passes the gate without launching.
`readFinish res`: the single read completes, records `a.err` and closes
`a.done` — durable for the life of the archive. `callerDone res`: a caller
returns `a.err` after observing `done`. `callerCancelled`: a caller's own
context expires; it returns the context error while the read is unaffected. -/
inductive GateStep : GateState → GateEvent → GateState → Prop
  | callSpawn (s : GateState) :
      s.phase = .notStarted →
      GateStep s .callSpawn { phase := .inProgress, spawns := s.spawns + 1 }
  | callJoin (s : GateState) :
      ¬ s.phase = .notStarted →
      GateStep s .callJoin s
  | readFinish (s : GateState) (res : Option GoStr) :
      s.phase = .inProgress →
      GateStep s (.readFinish res) { s with phase := .finished res }
  | callerDone (s : GateState) (res : Option GoStr) :
      s.phase = .finished res →
      GateStep s (.callerDone res) s
  | callerCancelled (s : GateState) :
      GateStep s .callerCancelled s

/-- Reachable gate states, from a freshly-constructed archive
(`newArchive`: once unused, `done` open). -/
inductive GateReachable : GateState → Prop
  | init : GateReachable { phase := .notStarted, spawns := 0 }
  | step {s : GateState} {e : GateEvent} {s' : GateState} :
      GateReachable s → GateStep s e s' → GateReachable s'

end ZipGate

namespace Netutil

/-!
## `internal/netutil/shared_limit_listener.go`

The shared limiter is a buffered channel of capacity `N`. `Accept` acquires
a slot (`acquire` selects between the closed `done` channel and a semaphore
send), calls the underlying listener's `Accept`, releases the slot on error,
and otherwise wraps the connection so that its `Close` releases the slot
through a `sync.Once`. Modelled as a labelled transition system.
-/

/-- Limiter state: `sem` is the number of filled semaphore slots, `pending`
the accepts that hold a slot but have not returned, `closed` whether the
listener's `done` channel is closed (which happens after the underlying
listener is closed), and `conns` the released-flags of the accepted
connections. -/
structure LimState where
  sem : Nat
  pending : Nat
  closed : Bool
  conns : List Bool
  deriving DecidableEq, Repr

/-- The number of accepted connections still holding their slot. -/
def countOpen (conns : List Bool) : Nat :=
  (conns.filter (fun released => released = false)).length

/-- Events of the shared limiter. -/
inductive LimEvent
  | acquireOk
  | acquireFailClosed
  | acceptOk
  | acceptErr
  | connClose (i : Nat)
  | closeListener
  deriving DecidableEq, Repr

/-- The transition relation for capacity `N`. `acquireOk`: the semaphore
send succeeds (possible whenever a slot is free — the `select` may pick it
even after close). `acquireFailClosed`: the closed `done` channel unblocks a
waiting acquire with no slot taken; the subsequent underlying `Accept` then
fails (the underlying listener was closed before `done`), so the state is
unchanged. `acceptOk`: an acquired accept returns a connection (only
possible while the underlying listener is open) whose wrapper will release
the slot on `Close`. `acceptErr`: an acquired accept fails and releases its
slot. `connClose i`: the wrapper's `Close`; the `sync.Once` releases the
slot only on the first call. `closeListener`: `Close` closes the underlying
listener and then the `done` channel. -/
inductive LimStep (N : Nat) : LimState → LimEvent → LimState → Prop
  | acquireOk (s : LimState) :
      s.sem < N →
      LimStep N s .acquireOk { s with sem := s.sem + 1, pending := s.pending + 1 }
  | acquireFailClosed (s : LimState) :
      s.closed = true →
      LimStep N s .acquireFailClosed s
  | acceptOk (s : LimState) :
      0 < s.pending →
      s.closed = false →
      LimStep N s .acceptOk { s with pending := s.pending - 1, conns := s.conns ++ [false] }
  | acceptErr (s : LimState) :
      0 < s.pending →
      LimStep N s .acceptErr { s with pending := s.pending - 1, sem := s.sem - 1 }
  | connCloseRelease (s : LimState) (i : Nat) :
      s.conns.get? i = some false →
      LimStep N s (.connClose i) { s with sem := s.sem - 1, conns := s.conns.set i true }
  | connCloseAgain (s : LimState) (i : Nat) :
      s.conns.get? i = some true →
      LimStep N s (.connClose i) s
  | closeListener (s : LimState) :
      LimStep N s .closeListener { s with closed := true }

/-- Reachable limiter states from the fresh `NewLimiter`/listener state. -/
inductive LimReachable (N : Nat) : LimState → Prop
  | init : LimReachable N { sem := 0, pending := 0, closed := false, conns := [] }
  | step {s : LimState} {e : LimEvent} {s' : LimState} :
      LimReachable N s → LimStep N s e s' → LimReachable N s'

end Netutil

/-!
# Theorems
-/

theorem resolveLoop_eq_find (total : Nat) (p : GoStr) (l : List Gitlab.ApiLookupPath) :
    Gitlab.resolveLoop total p l =
      (l.find? (fun lk => strContains p lk.pref)).map
        (fun lk => (Gitlab.mkServingLookupPath total lk, strTrimPref p lk.pref)) := by
  induction l with
  | nil => rfl
  | cons lk rest ih =>
    simp only [Gitlab.resolveLoop, List.find?]
    by_cases h : strContains p lk.pref
    · simp [h]
    · simp only [h, if_false]
      rw [ih]
      simp [h]

/-- C1 (amended): `Resolve` selects the *first* lookup path in response-list
order whose `Prefix` occurs as a substring (`strings.Contains`) of the
request path, and returns `TrimPrefix(P, Prefix)` as the request path; it
fails with the no-match error exactly when no prefix occurs as a substring
of `P`. -/
theorem resolve_is_first_substring_match (lookups : List Gitlab.ApiLookupPath) (p : GoStr) :
    Gitlab.resolve lookups p = Gitlab.resolveByFirstContains lookups p := by
  unfold Gitlab.resolve Gitlab.resolveByFirstContains
  exact resolveLoop_eq_find lookups.length p lookups

/-- C1 counterexample: with the single lookup path `/a` and request path
`/b/a`, no lookup prefix is a string prefix of the request path, yet
`Resolve` succeeds (because `strings.Contains` matches anywhere), refuting
both the longest-prefix selection and the no-match failure of the claim. -/
theorem resolve_succeeds_without_any_prefix_match :
    (∀ lk ∈ ([⟨str "/a", str "/some/source", false, false, 7⟩] : List Gitlab.ApiLookupPath),
      strHasPref (str "/b/a") lk.pref = false) ∧
    Gitlab.resolve [⟨str "/a", str "/some/source", false, false, 7⟩] (str "/b/a") =
      some (Gitlab.mkServingLookupPath 1 ⟨str "/a", str "/some/source", false, false, 7⟩,
        str "/b/a") := by
  decide

theorem sliceContains_eq_mem (l : List GoStr) (v : GoStr) :
    ZipVfs.sliceContains l v = decide (v ∈ l) := by
  induction l with
  | nil => rfl
  | cons x xs ih =>
    simp only [ZipVfs.sliceContains, List.any_cons] at *
    by_cases h : x = v
    · subst h
      simp
    · simp [h, ih, Ne.symm h]

theorem rootDirsLoop_eq_foldl (names : List GoStr) (acc : List GoStr) :
    ZipVfs.rootDirsLoop names acc =
      names.foldl
        (fun acc n =>
          if ZipVfs.firstSegment n ∈ acc then acc else acc ++ [ZipVfs.firstSegment n])
        acc := by
  induction names generalizing acc with
  | nil => rfl
  | cons n rest ih =>
    simp only [ZipVfs.rootDirsLoop, List.foldl_cons, sliceContains_eq_mem]
    by_cases h : ZipVfs.firstSegment n ∈ acc
    · simp [h, ih]
    · simp [h, ih]

/-- C3 (amended): the chosen public directory prefix is the sole *distinct
first path segment* of the entry names when exactly one exists (a root-level
plain file contributes its own name as a segment); otherwise the first
candidate of `public, build, dist, out, _site` occurring among those
segments; otherwise the empty prefix. -/
theorem guessPublicDirectoryName_eq_amended (names : List GoStr) :
    ZipVfs.guessPublicDirectoryName names = ZipVfs.amendedPublicDirectoryName names := by
  unfold ZipVfs.guessPublicDirectoryName ZipVfs.amendedPublicDirectoryName
  have hroots : ZipVfs.getAllRootDirectories names = ZipVfs.distinctFirstSegments names := by
    unfold ZipVfs.getAllRootDirectories ZipVfs.distinctFirstSegments
    rw [rootDirsLoop_eq_foldl, List.foldl_map]
  rw [hroots]
  simp only [sliceContains_eq_mem]

/-- C3 counterexample: for the archive entries `mysite/index.html` and
`readme.txt`, the archive has exactly one top-level directory (`mysite`),
but the code chooses the empty prefix instead, because `readme.txt` (a
root-level file) also counts as a "root directory" for it. -/
theorem guessPublicDirectoryName_sole_dir_counterexample :
    ZipVfs.claimTopLevelDirs [str "mysite/index.html", str "readme.txt"] = [str "mysite"] ∧
    ZipVfs.claimPublicDirectoryName [str "mysite/index.html", str "readme.txt"] = str "mysite" ∧
    ¬ ZipVfs.guessPublicDirectoryName [str "mysite/index.html", str "readme.txt"] =
        str "mysite" := by
  decide

/-- C4 (code bug): with the archive entries `public/index.html` and
`public2/secret.txt`, the guessed public prefix is `public`, and `Open` on
the name `../public2/secret.txt` — a name with a `..` segment — succeeds and
serves `public2/secret.txt`, a file outside the `public/` subtree, instead
of failing with a not-exist error: the prefix comparison
`strings.HasPrefix(name, publicDirectoryName)` lacks the trailing slash, so
sibling directories sharing the string prefix are recorded and reachable
via `..`. -/
theorem zipOpen_dotdot_escapes_public_root :
    (ZipVfs.readArchiveIndex
        [⟨str "public/index.html", .regular, .store⟩,
          ⟨str "public2/secret.txt", .regular, .store⟩]).1 = str "public" ∧
    ZipVfs.zipOpen
        (ZipVfs.readArchiveIndex
          [⟨str "public/index.html", .regular, .store⟩,
            ⟨str "public2/secret.txt", .regular, .store⟩]).1
        (ZipVfs.readArchiveIndex
          [⟨str "public/index.html", .regular, .store⟩,
            ⟨str "public2/secret.txt", .regular, .store⟩]).2
        (str "../public2/secret.txt") =
      .ok (.sectionReader ⟨str "public2/secret.txt", .regular, .store⟩) ∧
    strHasPref (str "public2/secret.txt") (str "public" ++ str "/") = false :=
  ⟨rfl, rfl, rfl⟩

theorem dirsMem_append_self (dirs : List GoStr) (d : GoStr) :
    ZipVfs.dirsMem (dirs ++ [d]) d = true := by
  simp [ZipVfs.dirsMem]

theorem dirsMem_addDirEntry_mono (dirs : List GoStr) (n k : GoStr)
    (h : ZipVfs.dirsMem dirs k = true) :
    ZipVfs.dirsMem (ZipVfs.addDirEntry dirs n) k = true := by
  unfold ZipVfs.addDirEntry
  split
  · exact h
  · simp only [ZipVfs.dirsMem, List.any_append]
    simp only [ZipVfs.dirsMem] at h
    simp [h]

theorem dirsMem_addPathDirectory_mono (dirs : List GoStr) (pathname k : GoStr)
    (h : ZipVfs.dirsMem dirs k = true) :
    ZipVfs.dirsMem (ZipVfs.addPathDirectory dirs pathname) k = true := by
  simp only [ZipVfs.addPathDirectory]
  split
  · exact h
  · split
    · exact h
    · simp only [ZipVfs.dirsMem, List.any_append]
      simp only [ZipVfs.dirsMem] at h
      simp [h]

theorem dirsMem_addPathDirectory_self (dirs : List GoStr) (pathname : GoStr)
    (h : ¬ ZipVfs.pathSplitDir pathname = []) :
    ZipVfs.dirsMem (ZipVfs.addPathDirectory dirs pathname)
      (ZipVfs.pathSplitDir pathname) = true := by
  simp only [ZipVfs.addPathDirectory]
  split
  · exact absurd (by assumption) h
  · split
    · assumption
    · exact dirsMem_append_self dirs _

theorem readArchiveStep_dirs_mono (pub : GoStr) (idx : ZipVfs.ZipIndex)
    (e : ZipVfs.ZipEntry) (k : GoStr) (h : ZipVfs.dirsMem idx.dirs k = true) :
    ZipVfs.dirsMem (ZipVfs.readArchiveStep pub idx e).dirs k = true := by
  unfold ZipVfs.readArchiveStep
  split
  · split
    · exact dirsMem_addPathDirectory_mono _ _ _ (dirsMem_addDirEntry_mono _ _ _ h)
    · exact dirsMem_addPathDirectory_mono _ _ _ h
  · exact h

theorem readArchiveStep_records_parent (pub : GoStr) (idx : ZipVfs.ZipIndex)
    (e : ZipVfs.ZipEntry) (hpref : strHasPref e.name pub = true)
    (hd : ¬ ZipVfs.pathSplitDir e.name = []) :
    ZipVfs.dirsMem (ZipVfs.readArchiveStep pub idx e).dirs
      (ZipVfs.pathSplitDir e.name) = true := by
  unfold ZipVfs.readArchiveStep
  rw [if_pos hpref]
  split
  · exact dirsMem_addPathDirectory_self _ _ hd
  · exact dirsMem_addPathDirectory_self _ _ hd

theorem foldl_dirs_mono (pub : GoStr) (l : List ZipVfs.ZipEntry) :
    ∀ (idx : ZipVfs.ZipIndex) (k : GoStr), ZipVfs.dirsMem idx.dirs k = true →
      ZipVfs.dirsMem ((l.foldl (ZipVfs.readArchiveStep pub) idx)).dirs k = true := by
  induction l with
  | nil => intro idx k h; exact h
  | cons a l ih =>
    intro idx k h
    exact ih _ k (readArchiveStep_dirs_mono pub idx a k h)

theorem foldl_records_parent (pub : GoStr) (l : List ZipVfs.ZipEntry) :
    ∀ (idx : ZipVfs.ZipIndex) (e : ZipVfs.ZipEntry), e ∈ l →
      strHasPref e.name pub = true → ¬ ZipVfs.pathSplitDir e.name = [] →
      ZipVfs.dirsMem ((l.foldl (ZipVfs.readArchiveStep pub) idx)).dirs
        (ZipVfs.pathSplitDir e.name) = true := by
  induction l with
  | nil => intro idx e he; exact absurd he (List.not_mem_nil e)
  | cons a l ih =>
    intro idx e he hpref hd
    rcases List.mem_cons.mp he with rfl | hmem
    · exact foldl_dirs_mono pub l _ _ (readArchiveStep_records_parent pub idx e hpref hd)
    · exact ih _ e hmem hpref hd

/-- C5 (amended): after a successful archive read, the *immediate parent*
directory of every entry recorded under the public prefix has a directory
entry (synthesized by `addPathDirectory`), so `Lstat` succeeds on the
immediate parent of any recorded file; deeper ancestors get entries only
when they are themselves some entry's immediate parent or explicit zip
directory records. -/
theorem immediate_parent_directory_recorded (entries : List ZipVfs.ZipEntry)
    (e : ZipVfs.ZipEntry) (he : e ∈ entries)
    (hpref : strHasPref e.name (ZipVfs.readArchiveIndex entries).1 = true)
    (hd : ¬ ZipVfs.pathSplitDir e.name = []) :
    ZipVfs.dirsMem (ZipVfs.readArchiveIndex entries).2.dirs
      (ZipVfs.pathSplitDir e.name) = true := by
  exact foldl_records_parent _ entries ⟨[], []⟩ e he hpref hd

/-- C5 witness: for the archive holding the single file `public/a/b/c.html`,
its immediate parent `public/a/b/` has a synthesized directory entry. -/
theorem immediate_parent_directory_recorded_witness :
    ZipVfs.dirsMem
      (ZipVfs.readArchiveIndex [⟨str "public/a/b/c.html", .regular, .store⟩]).2.dirs
      (ZipVfs.pathSplitDir (str "public/a/b/c.html")) = true :=
  immediate_parent_directory_recorded
    [⟨str "public/a/b/c.html", .regular, .store⟩]
    ⟨str "public/a/b/c.html", .regular, .store⟩
    (by decide) (by decide) (by decide)

/-- C5 counterexample: the archive holding only the file `public/a/b/c.html`
(no explicit directory records) has no directory entry for the proper
ancestor `public/a/`, and `Lstat("a")` fails with not-exist, refuting the
claim that every proper ancestor directory prefix of a recorded file gets a
directory entry. -/
theorem lstat_missing_intermediate_directory :
    strHasPref (str "public/a/b/c.html") (str "public/a/") = true ∧
    ZipVfs.dirsMem
        (ZipVfs.readArchiveIndex [⟨str "public/a/b/c.html", .regular, .store⟩]).2.dirs
        (str "public/a/") = false ∧
    ZipVfs.zipLstat (str "public")
        (ZipVfs.readArchiveIndex [⟨str "public/a/b/c.html", .regular, .store⟩]).2
        (str "a") = .error .notExist :=
  ⟨rfl, rfl, rfl⟩

/-- C7 (amended): for every request whose `RequestURI` (URL path plus any
query string) equals the configured status path, the server answers the
health check — `200 success` when the domain map has been initialised, `503
not yet ready` otherwise — regardless of the resolved domain, the artifact
proxy, or anything that would serve files. -/
theorem requestURI_statusPath_short_circuit
    (statusPath : GoStr) (redirectHTTP : Bool) (r : App.Request)
    (https artifactHit ready : Bool) (dom : Option App.DomainAux)
    (h : App.requestURI r = statusPath) :
    App.tryAuxiliaryHandlers statusPath redirectHTTP r https artifactHit ready dom =
      App.healthCheck ready ∧
    App.auxResponse
        (App.tryAuxiliaryHandlers statusPath redirectHTTP r https artifactHit ready dom) =
      some (if ready then (200, str "success") else (503, str "not yet ready")) := by
  have h1 : App.tryAuxiliaryHandlers statusPath redirectHTTP r https artifactHit ready dom =
      App.healthCheck ready := by
    unfold App.tryAuxiliaryHandlers
    rw [if_pos h]
  refine ⟨h1, ?_⟩
  rw [h1]
  unfold App.healthCheck App.auxResponse
  cases ready <;> simp

/-- C7 witness: a request for the configured status path on a ready app is
answered by the health check with `200 success`. -/
theorem requestURI_statusPath_short_circuit_witness :
    App.tryAuxiliaryHandlers (str "/-/healthy") false
        { urlPath := str "/-/healthy", rawQuery := [], host := str "h.test", https := true }
        true false true none = App.healthCheck true ∧
    App.auxResponse
        (App.tryAuxiliaryHandlers (str "/-/healthy") false
          { urlPath := str "/-/healthy", rawQuery := [], host := str "h.test", https := true }
          true false true none) =
      some (if true then (200, str "success") else (503, str "not yet ready")) :=
  requestURI_statusPath_short_circuit (str "/-/healthy") false
    { urlPath := str "/-/healthy", rawQuery := [], host := str "h.test", https := true }
    true false true none (by decide)

/-- C7 counterexample: a request whose `URL.Path` equals the configured
status path but which carries a query string (`RequestURI` differs) is *not*
answered by the health check — the pipeline falls through to content
serving — because the code compares `r.RequestURI`, not `URL.Path`. -/
theorem statusPath_with_query_not_short_circuited :
    ({ urlPath := str "/-/healthy", rawQuery := str "x=1", host := str "foo.test",
        https := true } : App.Request).urlPath = str "/-/healthy" ∧
    App.tryAuxiliaryHandlers (str "/-/healthy") false
        { urlPath := str "/-/healthy", rawQuery := str "x=1", host := str "foo.test",
          https := true }
        true false true (some ⟨false⟩) = .fallthroughServe ∧
    App.auxResponse .fallthroughServe = none := by
  decide

theorem ensureCertificate_error_no_cert {Cert : Type} (parse : GoStr → GoStr → Option Cert)
    (d : App.PagesDomain Cert)
    (h : ((App.ensureCertificate parse d).1.2).isSome = true) :
    (App.ensureCertificate parse d).1.1 = none := by
  cases hcfg : d.config with
  | none => simp [App.ensureCertificate, hcfg]
  | some cfg =>
    cases hcert : d.certificate with
    | some c => simp [App.ensureCertificate, hcfg, hcert] at h
    | none =>
      cases hp : parse cfg.certificate cfg.key with
      | none => simp [App.ensureCertificate, hcfg, hcert, hp]
      | some c => simp [App.ensureCertificate, hcfg, hcert, hp] at h

/-- C10 (confirmed): the TLS certificate-selection callback `ServeTLS` never
returns a non-nil error — the empty server name and unknown hosts yield
`(nil, nil)`, and when the lazy certificate assembly of a known domain
fails, the assembly error is discarded and the certificate component is also
nil, so the TLS stack falls back to the default certificate. -/
theorem serveTLS_never_returns_error {Cert : Type} (parse : GoStr → GoStr → Option Cert)
    (a : App.TheApp Cert) (sn : GoStr) :
    (App.serveTLS parse a sn).2 = none ∧
    (∀ d : App.PagesDomain Cert, App.appDomain a sn = some d →
      ((App.ensureCertificate parse d).1.2).isSome = true →
      (App.serveTLS parse a sn).1 = none) := by
  unfold App.serveTLS
  by_cases hsn : sn = ([] : GoStr)
  · simp [hsn]
  · rw [if_neg hsn]
    cases hd : App.appDomain a sn with
    | none => simp
    | some d =>
      refine ⟨rfl, ?_⟩
      intro d' hd' herr
      cases hd'
      simpa using ensureCertificate_error_no_cert parse d herr

/-- C10 witness: for a domain map holding `a.example` whose key pair fails
to parse, `ServeTLS` returns `(nil, nil)`. -/
theorem serveTLS_never_returns_error_witness :
    (App.serveTLS (fun _ _ => (none : Option Unit))
        { dm := some [(str "a.example",
            { config := some { certificate := str "c", key := str "k" },
              certificate := none })] }
        (str "a.example")).1 = none ∧
    (App.serveTLS (fun _ _ => (none : Option Unit))
        { dm := some [(str "a.example",
            { config := some { certificate := str "c", key := str "k" },
              certificate := none })] }
        (str "a.example")).2 = none :=
  ⟨(serveTLS_never_returns_error (fun _ _ => (none : Option Unit)) _ _).2
      { config := some { certificate := str "c", key := str "k" }, certificate := none }
      rfl rfl,
    (serveTLS_never_returns_error (fun _ _ => (none : Option Unit)) _ _).1⟩

/-- C9 counterexample: `RequireAuth` is an exported method of `*Auth` with
no nil check; on a nil receiver its call chain
(`checkSessionIsValid → checkSession → getSessionFromStore`) dereferences
the receiver's session store and panics, refuting "every exported method of
`*Auth` tolerates a nil receiver without panicking". -/
theorem requireAuth_nil_receiver_panics :
    Auth.requireAuth none
      { urlPath := str "/x", rawQuery := [], host := str "a.example", https := true } =
      .error .nilPointerDeref :=
  rfl

/-- C9 (amended): every exported method of `*Auth` *except `RequireAuth`*
tolerates a nil receiver: `IsAuthSupported`, `TryAuthenticate`,
`CheckAuthenticationWithoutProject` and `CheckResponseForInvalidToken`
return `false` (serving nothing), `GetTokenIfExists` returns the empty token
with a nil error, and `CheckAuthentication` serves a 500 error response and
returns `true`. -/
theorem auth_nil_receiver_behaviour (r : App.Request) (resp : Auth.ApiResponse)
    (projectID : Nat) :
    Auth.isAuthSupported none = false ∧
    Auth.tryAuthenticate none r = (false, []) ∧
    Auth.checkAuthenticationWithoutProject none r projectID = (false, []) ∧
    Auth.checkResponseForInvalidToken none r resp = (false, []) ∧
    Auth.getTokenIfExists none r = (([], none), []) ∧
    Auth.checkAuthentication none r projectID = (true, [.serve500]) :=
  ⟨rfl, rfl, rfl, rfl, rfl, rfl⟩

theorem gate_spawns_phase (s : ZipGate.GateState) (h : ZipGate.GateReachable s) :
    s.spawns = (if s.phase = ZipGate.ReadPhase.notStarted then 0 else 1) := by
  induction h with
  | init => rfl
  | step hr hst ih =>
    cases hst with
    | callSpawn hph =>
      rw [hph] at ih
      simp at ih
      simp [ih]
    | callJoin hph =>
      exact ih
    | readFinish res hph =>
      rw [hph] at ih
      simp at ih
      simp [ih]
    | callerDone res hph =>
      exact ih
    | callerCancelled =>
      exact ih

/-- C2 (confirmed): over every reachable state of the archive-open gate,
`readArchive` has been launched at most once (the `sync.Once`); once the
read has finished its recorded result is durable under every further step
(so all later callers receive the same stored result, and any two callers
observing completion agree on it); and a caller whose context is cancelled
returns the context error while leaving the gate — hence the background
read running under the archive's own `openTimeout` — untouched. -/
theorem openArchive_single_flight (s : ZipGate.GateState) (h : ZipGate.GateReachable s) :
    s.spawns ≤ 1 ∧
    (∀ (res : Option GoStr) (e : ZipGate.GateEvent) (s' : ZipGate.GateState),
      s.phase = .finished res → ZipGate.GateStep s e s' → s'.phase = .finished res) ∧
    (∀ s' : ZipGate.GateState, ZipGate.GateStep s .callerCancelled s' → s' = s) ∧
    (∀ (r1 r2 : Option GoStr) (s1 s2 : ZipGate.GateState),
      ZipGate.GateStep s (.callerDone r1) s1 → ZipGate.GateStep s (.callerDone r2) s2 →
      r1 = r2) := by
  refine ⟨?_, ?_, ?_, ?_⟩
  · rw [gate_spawns_phase s h]
    split <;> simp
  · intro res e s' hph hst
    cases hst with
    | callSpawn hns => rw [hph] at hns; simp at hns
    | callJoin hns => exact hph
    | readFinish r hip => rw [hph] at hip; simp at hip
    | callerDone r hres => exact hph
    | callerCancelled => exact hph
  · intro s' hst
    cases hst
    rfl
  · intro r1 r2 s1 s2 h1 h2
    cases h1 with
    | callerDone _ hr1 =>
      cases h2 with
      | callerDone _ hr2 =>
        have hfin := hr1.symm.trans hr2
        injection hfin

/-- C2 witness: the fresh archive state is reachable and has launched no
read yet. -/
theorem openArchive_single_flight_witness :
    ({ phase := .notStarted, spawns := 0 } : ZipGate.GateState).spawns ≤ 1 :=
  (openArchive_single_flight _ ZipGate.GateReachable.init).1

theorem countOpen_append_false (l : List Bool) :
    Netutil.countOpen (l ++ [false]) = Netutil.countOpen l + 1 := by
  simp [Netutil.countOpen, List.filter_append]

theorem countOpen_set_true (l : List Bool) :
    ∀ i : Nat, l.get? i = some false →
      Netutil.countOpen l = Netutil.countOpen (l.set i true) + 1 := by
  induction l with
  | nil => intro i h; simp at h
  | cons b t ih =>
    intro i h
    cases i with
    | zero =>
      simp only [List.get?_cons_zero, Option.some.injEq] at h
      subst h
      simp [Netutil.countOpen, List.set]
    | succ n =>
      have ht : t.get? n = some false := by simpa using h
      have := ih n ht
      cases b <;> simp [Netutil.countOpen, List.set] at this ⊢ <;> omega

theorem get?_set_true (l : List Bool) :
    ∀ i : Nat, l.get? i = some false → (l.set i true).get? i = some true := by
  induction l with
  | nil => intro i h; simp at h
  | cons b t ih =>
    intro i h
    cases i with
    | zero => simp
    | succ n => simpa using ih n (by simpa using h)

theorem lim_accounting (N : Nat) (s : Netutil.LimState) (h : Netutil.LimReachable N s) :
    s.sem = s.pending + Netutil.countOpen s.conns ∧ s.sem ≤ N := by
  induction h with
  | init => simp [Netutil.countOpen]
  | step hr hst ih =>
    obtain ⟨ie, ile⟩ := ih
    cases hst with
    | acquireOk hlt =>
      refine ⟨?_, ?_⟩ <;> simp <;> omega
    | acquireFailClosed hc => exact ⟨ie, ile⟩
    | acceptOk hp hc =>
      refine ⟨?_, ?_⟩ <;> simp [countOpen_append_false] <;> omega
    | acceptErr hp =>
      refine ⟨?_, ?_⟩ <;> simp <;> omega
    | connCloseRelease i hi =>
      have hcnt := countOpen_set_true _ i hi
      refine ⟨?_, ?_⟩ <;> simp <;> omega
    | connCloseAgain i hi => exact ⟨ie, ile⟩
    | closeListener => exact ⟨ie, ile⟩

/-- C8 (confirmed): in every reachable state of the shared connection
limiter of capacity `N`, at most `N` accepted connections hold slots — the
exact accounting `sem = pending + open connections` holds with `sem ≤ N`,
so no slot is leaked or over-released; a connection's `Close` releases its
slot exactly once (a second `Close` is a no-op); and an acquire unblocked
by the closed listener leaves the accounting untouched. -/
theorem shared_limiter_slot_accounting (N : Nat) (s : Netutil.LimState)
    (h : Netutil.LimReachable N s) :
    (Netutil.countOpen s.conns ≤ N ∧
      s.sem = s.pending + Netutil.countOpen s.conns ∧ s.sem ≤ N) ∧
    (∀ (i : Nat) (s1 s2 : Netutil.LimState),
      Netutil.LimStep N s (.connClose i) s1 → Netutil.LimStep N s1 (.connClose i) s2 →
      s2 = s1) ∧
    (∀ s' : Netutil.LimState, Netutil.LimStep N s .acquireFailClosed s' → s' = s) := by
  obtain ⟨ie, ile⟩ := lim_accounting N s h
  refine ⟨⟨by omega, ie, ile⟩, ?_, ?_⟩
  · intro i s1 s2 h1 h2
    cases h1 with
    | connCloseRelease _ hi =>
      cases h2 with
      | connCloseRelease _ hi2 =>
        have hset := get?_set_true s.conns i hi
        simp only [hset] at hi2
        simp at hi2
      | connCloseAgain _ hi2 => rfl
    | connCloseAgain _ hi =>
      cases h2 with
      | connCloseRelease _ hi2 =>
        rw [hi] at hi2
        simp at hi2
      | connCloseAgain _ hi2 => rfl
  · intro s' hst
    cases hst
    rfl

/-- C8 witness: the fresh limiter state is reachable and holds no slots. -/
theorem shared_limiter_slot_accounting_witness :
    Netutil.countOpen ([] : List Bool) ≤ 4 :=
  ((shared_limiter_slot_accounting 4 _ Netutil.LimReachable.init).1).1

theorem find?_del_self (q : Auth.Values) (k : GoStr) :
    List.find? (fun p => p.fst = k) (Auth.valuesDel q k) = none := by
  apply List.find?_eq_none.mpr
  intro x hx
  have hmem := List.mem_filter.mp hx
  simp at hmem ⊢
  exact hmem.2

theorem find?_del_mono (q : Auth.Values) (k k' : GoStr)
    (h : List.find? (fun p => p.fst = k') q = none) :
    List.find? (fun p => p.fst = k') (Auth.valuesDel q k) = none := by
  apply List.find?_eq_none.mpr
  intro x hx
  exact List.find?_eq_none.mp h x (List.mem_filter.mp hx).1

theorem valuesGetQ_set_self (q : Auth.Values) (k : GoStr) (v : Auth.QVal) :
    Auth.valuesGetQ (Auth.valuesSet q k v) k = some v := by
  unfold Auth.valuesSet Auth.valuesGetQ
  rw [List.find?_cons_of_pos _ (by simp)]

theorem valuesGetQ_set_other (q : Auth.Values) (k k' : GoStr) (v : Auth.QVal)
    (h : ¬ k = k') :
    Auth.valuesGetQ (Auth.valuesSet q k v) k' = Auth.valuesGetQ (Auth.valuesDel q k) k' := by
  unfold Auth.valuesSet Auth.valuesGetQ
  rw [List.find?_cons_of_neg _ (by simp [h])]

/-- C6 (confirmed, with `EncryptAndSignCode` modelled from the spec): when
the pages-domain `/auth` callback is not itself a proxy-initiation request
and finds `proxy_auth_domain` in the session, the redirect it issues to that
tenant domain carries no `token` query parameter, and its `code` parameter
is the encrypted-and-signed JWT binding the original code to the tenant
domain with the one-minute (60 s) expiry fixed by `New` — not the original
authorization code itself. -/
theorem code_relay_signs_and_strips_token
    (pagesDomain storeSecret clientID clientSecret redirectURI gitLabServer authScope : GoStr)
    (parseHostOf : GoStr → Option GoStr) (domainsHas : GoStr → Bool)
    (session : Auth.Session) (urlPath : GoStr) (q : Auth.Values) (d : GoStr)
    (hnoproxy : Auth.shouldProxyAuthToGitlab q = false)
    (hsess : Auth.sessGet session (str "proxy_auth_domain") = some d) :
    ∃ (q' : Auth.Values) (session' : Auth.Session),
      Auth.handleProxyingAuth
          (Auth.authNew pagesDomain storeSecret clientID clientSecret redirectURI
            gitLabServer authScope)
          parseHostOf domainsHas false session urlPath q =
        .redirectToProxyDomain d urlPath q' session' ∧
      Auth.valuesGetQ q' (str "token") = none ∧
      Auth.valuesGetQ q' (str "code") =
        some (.jwtCode d (Auth.valuesGetStr q (str "code")) 60) ∧
      (∀ c : GoStr, ¬ Auth.valuesGetQ q' (str "code") = some (.plain c)) := by
  have hq' :
      Auth.handleProxyingAuth
          (Auth.authNew pagesDomain storeSecret clientID clientSecret redirectURI
            gitLabServer authScope)
          parseHostOf domainsHas false session urlPath q =
        .redirectToProxyDomain d urlPath
          (Auth.valuesSet (Auth.valuesDel q (str "token")) (str "code")
            (.jwtCode d (Auth.valuesGetStr q (str "code")) 60))
          (Auth.sessDel session (str "proxy_auth_domain")) := by
    simp [Auth.handleProxyingAuth, hnoproxy, Auth.shouldProxyCallbackToCustomDomain,
      hsess, Auth.encryptAndSignCode, Auth.authNew]
  refine ⟨_, _, hq', ?_, ?_, ?_⟩
  · rw [valuesGetQ_set_other _ _ _ _ (by decide)]
    unfold Auth.valuesGetQ
    rw [find?_del_mono _ _ _ (find?_del_self q (str "token"))]
  · rw [valuesGetQ_set_self]
  · intro c hc
    rw [valuesGetQ_set_self] at hc
    simp at hc

/-- C6 witness: a concrete provider callback with `code`, `token` and
`state` parameters and a session binding `proxy_auth_domain` to the tenant
produces the tenant redirect with the token removed and the code replaced by
the JWT. -/
theorem code_relay_signs_and_strips_token_witness :
    ∃ (q' : Auth.Values) (session' : Auth.Session),
      Auth.handleProxyingAuth
          (Auth.authNew (str "pages.example") (str "secret") (str "cid") (str "cs")
            (str "https://pages.example/auth") (str "https://gitlab.example/") (str "api"))
          (fun _ => none) (fun _ => false) false
          [(str "proxy_auth_domain", str "https://t.example")]
          (str "/auth")
          [(str "code", [Auth.QVal.plain (str "origcode")]),
            (str "token", [Auth.QVal.plain (str "tok")]),
            (str "state", [Auth.QVal.plain (str "s1")])] =
        .redirectToProxyDomain (str "https://t.example") (str "/auth") q' session' ∧
      Auth.valuesGetQ q' (str "token") = none ∧
      Auth.valuesGetQ q' (str "code") =
        some (.jwtCode (str "https://t.example")
          (Auth.valuesGetStr
            [(str "code", [Auth.QVal.plain (str "origcode")]),
              (str "token", [Auth.QVal.plain (str "tok")]),
              (str "state", [Auth.QVal.plain (str "s1")])]
            (str "code")) 60) ∧
      (∀ c : GoStr, ¬ Auth.valuesGetQ q' (str "code") = some (.plain c)) :=
  code_relay_signs_and_strips_token
    (str "pages.example") (str "secret") (str "cid") (str "cs")
    (str "https://pages.example/auth") (str "https://gitlab.example/") (str "api")
    (fun _ => none) (fun _ => false)
    [(str "proxy_auth_domain", str "https://t.example")]
    (str "/auth")
    [(str "code", [Auth.QVal.plain (str "origcode")]),
      (str "token", [Auth.QVal.plain (str "tok")]),
      (str "state", [Auth.QVal.plain (str "s1")])]
    (str "https://t.example")
    (by decide) (by decide)
